import Mathlib

/-
Verification of src/tools/sfidenum.py (Salesforce ID decode/enumeration tool).

Shallow embedding conventions:
- Python strings are modelled as List Char (ASCII; Python's Unicode-aware
  str.isalnum / str.isupper / str.strip are modelled by their ASCII
  restrictions, which is exact on the ASCII inputs the claims are about).
- Python ints are Int (arbitrary precision in both); values known
  non-negative are Nat.
- Functions that can raise return Option / Except.
- The while-loops of int_to_base62 and gen_value_sequence are modelled with
  structural fuel so that every definition evaluates inside the kernel.
-/

namespace Sfidenum

/-- The fixed base-62 alphabet "0-9 A-Z a-z" (sfidenum.py line 30). -/
def ALPHABET : List Char :=
  "0123456789ABCDEFGHIJKLMNOPQRSTUVWXYZabcdefghijklmnopqrstuvwxyz".toList

/-- BASE = len(ALPHABET) (line 31). -/
def BASE : Nat := ALPHABET.length

/-- MAX_BASE62_8 = BASE ** 8 - 1 (line 32). -/
def MAX_BASE62_8 : Nat := BASE ^ 8 - 1

theorem BASE_eq : BASE = 62 := by decide

/-- The digit loop of int_to_base62 (lines 42-45): least-significant digit
first, like Python's chars list before the final reversal.  The first
argument is structural fuel; any fuel ≥ n computes the digits of n. -/
def toB62Aux : Nat → Nat → List Char
  | _, 0 => []
  | 0, _ + 1 => []
  | fuel + 1, n + 1 => ALPHABET.getD ((n + 1) % BASE) ' ' :: toB62Aux fuel ((n + 1) / BASE)

/-- The left-padding step of int_to_base62 (lines 47-48). -/
def padTo (min_len : Nat) (s : List Char) : List Char :=
  if s.length < min_len then List.replicate (min_len - s.length) '0' ++ s else s

/-- int_to_base62 (lines 35-49) restricted to its non-negative domain
(the n < 0 branch raises ValueError; every caller in the file passes a
clamped or decoded value, hence a Nat). -/
def int_to_base62 (n : Nat) (min_len : Nat) : List Char :=
  padTo min_len (if n = 0 then ['0'] else (toB62Aux n n).reverse)

/-- ALPHABET.find(ch) (line 56): index of the first occurrence, none if
absent (Python returns -1 and the caller raises). -/
def strFind (l : List Char) (c : Char) : Option Nat :=
  match l with
  | [] => none
  | x :: xs => if x = c then some 0 else (strFind xs c).map (· + 1)

/-- The accumulator loop of base62_to_int (lines 54-59). -/
def base62Fold (acc : Nat) : List Char → Option Nat
  | [] => some acc
  | c :: rest =>
    match strFind ALPHABET c with
    | none => none
    | some i => base62Fold (acc * BASE + i) rest

/-- base62_to_int (lines 52-60); none models the ValueError on a
character outside the alphabet. -/
def base62_to_int (s : List Char) : Option Nat := base62Fold 0 s

/-- Natural base-62 digit count of n, i.e. len(s) before padding in
int_to_base62. -/
def b62DigitCount (n : Nat) : Nat :=
  if n = 0 then 1 else (toB62Aux n n).length

-- ---------------------------------------------------------------------
-- Codec lemmas
-- ---------------------------------------------------------------------

theorem two_le_BASE : 2 ≤ BASE := by decide

theorem strFind_alphabet_getD : ∀ r, r < BASE → strFind ALPHABET (ALPHABET.getD r ' ') = some r := by
  decide

theorem strFind_lt_length {l : List Char} {c : Char} {i : Nat}
    (h : strFind l c = some i) : i < l.length := by
  induction l generalizing i with
  | nil => simp [strFind] at h
  | cons x xs ih =>
    rw [List.length_cons]
    by_cases hx : x = c
    · simp [strFind, hx] at h
      omega
    · simp [strFind, hx] at h
      obtain ⟨j, hj, rfl⟩ := h
      have := ih hj
      omega

theorem base62Fold_append (l₁ l₂ : List Char) (acc : Nat) :
    base62Fold acc (l₁ ++ l₂) =
      match base62Fold acc l₁ with
      | none => none
      | some m => base62Fold m l₂ := by
  induction l₁ generalizing acc with
  | nil => simp [base62Fold]
  | cons c rest ih =>
    simp only [List.cons_append, base62Fold]
    cases strFind ALPHABET c with
    | none => simp
    | some i => exact ih _

theorem toB62Aux_le_fuel_irrel (f₁ f₂ n : Nat) (h₁ : n ≤ f₁) (h₂ : n ≤ f₂) :
    toB62Aux f₁ n = toB62Aux f₂ n := by
  induction f₁ generalizing f₂ n with
  | zero =>
    have : n = 0 := Nat.le_zero.mp h₁
    subst this
    cases f₂ <;> rfl
  | succ f ih =>
    cases n with
    | zero => cases f₂ <;> rfl
    | succ k =>
      cases f₂ with
      | zero => exact absurd h₂ (by omega)
      | succ f' =>
        simp only [toB62Aux]
        have hdiv : (k + 1) / BASE ≤ k := by
          have h : (k + 1) / BASE < k + 1 := Nat.div_lt_self (by omega) (by decide)
          omega
        exact congrArg _ (ih _ _ (by omega) (by omega))

/-- Decoding the (reversed, i.e. most-significant-first) digit list of n
recovers n, for any accumulator. -/
theorem base62Fold_toB62Aux (fuel : Nat) :
    ∀ n acc, n ≤ fuel →
      base62Fold acc ((toB62Aux fuel n).reverse) =
        some (acc * BASE ^ (toB62Aux fuel n).length + n) := by
  induction fuel with
  | zero =>
    intro n acc h
    have : n = 0 := Nat.le_zero.mp h
    subst this
    simp [toB62Aux, base62Fold]
  | succ f ih =>
    intro n acc h
    cases n with
    | zero => simp [toB62Aux, base62Fold]
    | succ k =>
      simp only [toB62Aux, List.reverse_cons]
      have hdiv : (k + 1) / BASE ≤ f := by
        have h : (k + 1) / BASE < k + 1 := Nat.div_lt_self (by omega) (by decide)
        omega
      rw [base62Fold_append, ih _ acc hdiv]
      have hr : (k + 1) % BASE < BASE := Nat.mod_lt _ (by decide)
      simp only [base62Fold, strFind_alphabet_getD _ hr]
      rw [List.length_cons]
      congr 1
      have hmod := Nat.div_add_mod (k + 1) BASE
      rw [Nat.pow_succ]
      ring_nf
      ring_nf at hmod ⊢
      omega

theorem base62Fold_replicate_zero (m : Nat) (rest : List Char) :
    base62Fold 0 (List.replicate m '0' ++ rest) = base62Fold 0 rest := by
  induction m with
  | zero => simp
  | succ k ih =>
    have h0 : strFind ALPHABET '0' = some 0 := rfl
    simpa [List.replicate_succ, base62Fold, h0] using ih

theorem base62_to_int_padTo (k : Nat) (s : List Char) :
    base62_to_int (padTo k s) = base62_to_int s := by
  unfold base62_to_int padTo
  split
  · exact base62Fold_replicate_zero _ _
  · rfl

theorem padTo_length {k : Nat} {s : List Char} (h : s.length ≤ k) :
    (padTo k s).length = k := by
  unfold padTo
  split
  · simp only [List.length_append, List.length_replicate]
    omega
  · omega

/-- Round-trip: base62_to_int (int_to_base62 n k) = some n, for every k. -/
theorem base62_roundtrip (n k : Nat) :
    base62_to_int (int_to_base62 n k) = some n := by
  unfold int_to_base62
  rw [base62_to_int_padTo]
  by_cases h0 : n = 0
  · subst h0
    rfl
  · simp only [if_neg h0]
    have hdec := base62Fold_toB62Aux n n 0 (Nat.le_refl n)
    unfold base62_to_int
    rw [hdec]
    simp

/-- The digit list of n has at most L digits when n < BASE^L. -/
theorem toB62Aux_length_le (fuel : Nat) :
    ∀ n L, n ≤ fuel → n < BASE ^ L → (toB62Aux fuel n).length ≤ L := by
  induction fuel with
  | zero =>
    intro n L h _
    have : n = 0 := Nat.le_zero.mp h
    subst this
    simp [toB62Aux]
  | succ f ih =>
    intro n L h hlt
    cases n with
    | zero => simp [toB62Aux]
    | succ k =>
      cases L with
      | zero => simp at hlt
      | succ L' =>
        simp only [toB62Aux, List.length_cons]
        have hdiv : (k + 1) / BASE ≤ f := by
          have h : (k + 1) / BASE < k + 1 := Nat.div_lt_self (by omega) (by decide)
          omega
        have hlt' : (k + 1) / BASE < BASE ^ L' := by
          rw [Nat.div_lt_iff_lt_mul (by decide : 0 < BASE)]
          calc k + 1 < BASE ^ (L' + 1) := hlt
            _ = BASE ^ L' * BASE := by rw [Nat.pow_succ]
        have := ih _ L' hdiv hlt'
        omega

/-- Encoding with min_len = 8 yields exactly 8 characters whenever the
value is in the representable range. -/
theorem int_to_base62_length_eight (n : Nat) (hn : n ≤ MAX_BASE62_8) :
    (int_to_base62 n 8).length = 8 := by
  have hlt : n < BASE ^ 8 := by
    have : 0 < BASE ^ 8 := Nat.pos_pow_of_pos 8 (by decide)
    unfold MAX_BASE62_8 at hn
    omega
  unfold int_to_base62
  apply padTo_length
  by_cases h0 : n = 0
  · subst h0
    simp
  · simp only [if_neg h0]
    have hlen : (toB62Aux n n).length ≤ 8 :=
      toB62Aux_length_le n n 8 (Nat.le_refl n) hlt
    rw [List.length_reverse]
    exact hlen

/-- Any successfully decoded string of length d denotes a value below
BASE^d; with an accumulator, below (acc+1) * BASE^d. -/
theorem base62Fold_lt (s : List Char) :
    ∀ acc n, base62Fold acc s = some n → n < (acc + 1) * BASE ^ s.length := by
  induction s with
  | nil =>
    intro acc n h
    simp [base62Fold] at h
    subst h
    simp
  | cons c rest ih =>
    intro acc n h
    simp only [base62Fold] at h
    cases hf : strFind ALPHABET c with
    | none => rw [hf] at h; exact absurd h (by simp)
    | some i =>
      rw [hf] at h
      have hi : i < BASE := strFind_lt_length hf
      have := ih _ _ h
      calc n < (acc * BASE + i + 1) * BASE ^ rest.length := this
        _ ≤ ((acc + 1) * BASE) * BASE ^ rest.length := by
            have : acc * BASE + i + 1 ≤ (acc + 1) * BASE := by nlinarith
            exact Nat.mul_le_mul_right _ this
        _ = (acc + 1) * BASE ^ (c :: rest).length := by
            rw [List.length_cons, Nat.pow_succ]; ring

theorem base62_to_int_lt {s : List Char} {n : Nat}
    (h : base62_to_int s = some n) : n < BASE ^ s.length := by
  have := base62Fold_lt s 0 n h
  simpa using this

-- ---------------------------------------------------------------------
-- 15 -> 18 checksum (lines 64-82)
-- ---------------------------------------------------------------------

/-- _MAPPING (line 64): the 32-symbol suffix table A-Z then 0-5. -/
def _MAPPING : List Char := "ABCDEFGHIJKLMNOPQRSTUVWXYZ012345".toList

/-- One iteration of the suffix loop (lines 78-81): reverse the segment,
read its case pattern as a 5-bit big-endian number (int(bits, 2)), map
through _MAPPING.  Char.isUpper is the ASCII restriction of Python's
str.isupper on a single character. -/
def segChar (seg : List Char) : Char :=
  _MAPPING.getD
    ((seg.reverse).foldl (fun acc c => 2 * acc + (if c.isUpper then 1 else 0)) 0) 'A'

/-- The three 5-character slices id15[0:5], id15[5:10], id15[10:15]
(line 75) mapped through the per-segment suffix computation. -/
def suffix3 (id15 : List Char) : List Char :=
  [id15.take 5, (id15.drop 5).take 5, (id15.drop 10).take 5].map segChar

/-- id15_to_18 (lines 67-82); none models the ValueError raised when the
input is not exactly 15 characters. -/
def id15_to_18 (id15 : List Char) : Option (List Char) :=
  if id15.length = 15 then some (id15 ++ suffix3 id15) else none

theorem suffix3_length (id15 : List Char) : (suffix3 id15).length = 3 := rfl

-- ---------------------------------------------------------------------
-- normalize_to_15 (lines 85-101)
-- ---------------------------------------------------------------------

/-- A Python str.strip whitespace character, ASCII fragment. -/
def isPySpace (c : Char) : Bool :=
  c = ' ' || c = '\t' || c = '\n' || c = '\r' || c = Char.ofNat 11 || c = Char.ofNat 12

/-- sfid.strip() (line 92): drop leading and trailing whitespace. -/
def pyStrip (s : List Char) : List Char :=
  ((s.dropWhile isPySpace).reverse.dropWhile isPySpace).reverse

/-- Python str.isalnum (ASCII restriction): nonempty and every character
alphanumeric. -/
def pyIsAlnum (s : List Char) : Bool :=
  !s.isEmpty && s.all Char.isAlphanum

/-- normalize_to_15 (lines 85-101).  The error payload is the exception
message; main prepends "Error: " when printing it to stderr. -/
def normalize_to_15 (sfid : List Char) : Except (List Char) (List Char) :=
  if sfid.isEmpty then
    Except.error "Salesforce ID must be a non-empty string".toList
  else
    if (pyStrip sfid).length = 18 then
      if pyIsAlnum ((pyStrip sfid).take 15) then Except.ok ((pyStrip sfid).take 15)
      else Except.error "Salesforce ID must be alphanumeric".toList
    else if (pyStrip sfid).length = 15 then
      if pyIsAlnum (pyStrip sfid) then Except.ok (pyStrip sfid)
      else Except.error "Salesforce ID must be alphanumeric".toList
    else
      Except.error "Salesforce ID must be 15 or 18 characters long".toList

theorem normalize_ok_length {s c : List Char}
    (h : normalize_to_15 s = Except.ok c) : c.length = 15 := by
  unfold normalize_to_15 at h
  split at h
  · exact absurd h (by simp)
  · split at h
    · split at h
      · rename_i h18 _
        cases h
        simp [List.length_take]
        omega
      · exact absurd h (by simp)
    · split at h
      · split at h
        · rename_i h15 _
          cases h
          assumption
        · exact absurd h (by simp)
      · exact absurd h (by simp)

-- ---------------------------------------------------------------------
-- IdComposer: clamp_record_value (117-118) and make_id (121-133)
-- ---------------------------------------------------------------------

/-- clamp_record_value (lines 117-118): max(0, min(MAX_BASE62_8, v)). -/
def clamp_record_value (v : Int) : Int :=
  max 0 (min (MAX_BASE62_8 : Int) v)

/-- make_id (lines 121-133).  Returns (id_out, counter_base62_8, value);
none models the uncaught ValueError that id15_to_18 would raise if the
composed id15 were not 15 characters long. -/
def make_id (prefix7 : List Char) (value : Int) (to18 : Bool) :
    Option (List Char × List Char × Int) :=
  match
    (if to18 then
      id15_to_18 (prefix7 ++ int_to_base62 (clamp_record_value value).toNat 8)
    else some (prefix7 ++ int_to_base62 (clamp_record_value value).toNat 8)) with
  | none => none
  | some out =>
    some (out, int_to_base62 (clamp_record_value value).toNat 8, clamp_record_value value)

/-- The output-id component of make_id, in closed form. -/
def composedId (prefix7 : List Char) (value : Int) (to18 : Bool) : List Char :=
  (prefix7 ++ int_to_base62 (clamp_record_value value).toNat 8) ++
    (if to18 then
      suffix3 (prefix7 ++ int_to_base62 (clamp_record_value value).toNat 8)
    else [])

theorem clamp_record_value_nonneg (v : Int) : 0 ≤ clamp_record_value v :=
  le_max_left 0 _

theorem clamp_record_value_le (v : Int) :
    clamp_record_value v ≤ (MAX_BASE62_8 : Int) := by
  unfold clamp_record_value
  have h : min (MAX_BASE62_8 : Int) v ≤ (MAX_BASE62_8 : Int) := min_le_left _ _
  have h0 : (0 : Int) ≤ (MAX_BASE62_8 : Int) := by positivity
  exact max_le h0 h

theorem clamp_toNat_le (v : Int) :
    (clamp_record_value v).toNat ≤ MAX_BASE62_8 :=
  Int.toNat_le.mpr (clamp_record_value_le v)

/-- The counter field of make_id always has exactly 8 characters. -/
theorem make_id_counter_length (v : Int) :
    (int_to_base62 (clamp_record_value v).toNat 8).length = 8 :=
  int_to_base62_length_eight _ (clamp_toNat_le v)

/-- make_id never fails on a 7-character object/instance marker: the
composed body has 15 characters, so the checksum step accepts it, and
the result is composedId together with the 8 counter digits and the
clamped value. -/
theorem make_id_spec (prefix7 : List Char) (value : Int) (to18 : Bool)
    (h : prefix7.length = 7) :
    make_id prefix7 value to18 =
      some (composedId prefix7 value to18,
            int_to_base62 (clamp_record_value value).toNat 8,
            clamp_record_value value) := by
  have hlen : (prefix7 ++ int_to_base62 (clamp_record_value value).toNat 8).length = 15 := by
    rw [List.length_append, h, make_id_counter_length]
  have h18 : id15_to_18 (prefix7 ++ int_to_base62 (clamp_record_value value).toNat 8) =
      some ((prefix7 ++ int_to_base62 (clamp_record_value value).toNat 8) ++
        suffix3 (prefix7 ++ int_to_base62 (clamp_record_value value).toNat 8)) := by
    unfold id15_to_18
    rw [if_pos hlen]
  unfold make_id composedId
  cases to18 with
  | false => simp
  | true => simp [h18]

-- ---------------------------------------------------------------------
-- SequenceGenerator: gen_value_sequence (lines 136-153)
-- ---------------------------------------------------------------------

/-- The while-loop of gen_value_sequence (147-153): fuel is
count - produced; the loop yields the current value while it lies in
[0, MAX_BASE62_8] and stops at the first value outside. -/
def genLoop (step : Int) : Nat → Int → List Int
  | 0, _ => []
  | fuel + 1, current =>
    if 0 ≤ current ∧ current ≤ (MAX_BASE62_8 : Int) then
      current :: genLoop step fuel (current + step)
    else []

/-- gen_value_sequence (lines 136-153): empty for seq = 0, otherwise at
most |seq| values starting at start_value stepping ±1. -/
def gen_value_sequence (start_value : Int) (seq : Int) : List Int :=
  if seq = 0 then []
  else genLoop (if 0 < seq then 1 else -1) seq.natAbs start_value

theorem genLoop_length_le (step : Int) (fuel : Nat) (current : Int) :
    (genLoop step fuel current).length ≤ fuel := by
  induction fuel generalizing current with
  | zero => simp [genLoop]
  | succ f ih =>
    unfold genLoop
    split
    · simp only [List.length_cons]
      have := ih (current + step)
      omega
    · simp

/-- The i-th produced value is current + step * i, and it is in range. -/
theorem genLoop_getElem (step : Int) (fuel : Nat) :
    ∀ current i, i < (genLoop step fuel current).length →
      (genLoop step fuel current)[i]? = some (current + step * i) ∧
        0 ≤ current + step * i ∧ current + step * i ≤ (MAX_BASE62_8 : Int) := by
  induction fuel with
  | zero => intro current i h; simp [genLoop] at h
  | succ f ih =>
    intro current i h
    unfold genLoop at h ⊢
    by_cases hin : 0 ≤ current ∧ current ≤ (MAX_BASE62_8 : Int)
    · rw [if_pos hin] at h ⊢
      cases i with
      | zero =>
        simpa using hin
      | succ j =>
        simp only [List.getElem?_cons_succ, List.length_cons] at h ⊢
        have := ih (current + step) j (by omega)
        refine ⟨?_, ?_, ?_⟩
        · rw [this.1]
          congr 1
          push_cast
          ring
        · have h1 := this.2.1
          push_cast at h1 ⊢
          linarith
        · have h2 := this.2.2
          push_cast at h2 ⊢
          linarith
    · rw [if_neg hin] at h
      simp at h

/-- If the loop stopped early, the next value is out of range. -/
theorem genLoop_stop (step : Int) (fuel : Nat) :
    ∀ current, (genLoop step fuel current).length < fuel →
      ¬(0 ≤ current + step * (genLoop step fuel current).length ∧
        current + step * (genLoop step fuel current).length ≤ (MAX_BASE62_8 : Int)) := by
  induction fuel with
  | zero => intro current h; omega
  | succ f ih =>
    intro current h
    unfold genLoop at h ⊢
    by_cases hin : 0 ≤ current ∧ current ≤ (MAX_BASE62_8 : Int)
    · rw [if_pos hin] at h ⊢
      simp only [List.length_cons] at h ⊢
      have hrec := ih (current + step) (by omega)
      intro hc
      apply hrec
      constructor
      · have h1 := hc.1
        push_cast at h1 ⊢
        linarith
      · have h2 := hc.2
        push_cast at h2 ⊢
        linarith
    · rw [if_neg hin] at h ⊢
      simp only [List.length_nil, Nat.cast_zero, mul_zero, add_zero]
      exact hin

theorem genLoop_ne_nil (step : Int) (fuel : Nat) (current : Int)
    (hf : 0 < fuel) (h0 : 0 ≤ current) (h1 : current ≤ (MAX_BASE62_8 : Int)) :
    genLoop step fuel current ≠ [] := by
  cases fuel with
  | zero => omega
  | succ f =>
    unfold genLoop
    rw [if_pos ⟨h0, h1⟩]
    simp

theorem gen_value_sequence_ne_nil (start_value seq : Int) (hseq : seq ≠ 0)
    (h0 : 0 ≤ start_value) (h1 : start_value ≤ (MAX_BASE62_8 : Int)) :
    gen_value_sequence start_value seq ≠ [] := by
  unfold gen_value_sequence
  rw [if_neg hseq]
  exact genLoop_ne_nil _ _ _ (by omega) h0 h1

-- ---------------------------------------------------------------------
-- The CLI driver: main (lines 189-375)
-- ---------------------------------------------------------------------

/-- The three normalized --mode values (normalize_mode, lines 169-186). -/
inductive Mode where
  | decode
  | enumFromValue
  | enumFromCurrent
deriving DecidableEq

/-- The parsed CLI arguments main consumes (id is required; mode is
already normalized; threads defaults to 50). -/
structure Args where
  id : List Char
  mode : Mode
  start : Option Int
  seq : Option Int
  threads : Int
  displayonly : Bool
  to18 : Bool

deriving instance DecidableEq for Except

/-- The observable outcome of one run of main: the returned exit code,
every line printed to stdout, every line printed to stderr, and the
content of the output file (none when no file was created).  File writes
are modelled as succeeding, so the WriteFailure exit code 4 does not
occur in the model. -/
structure Outcome where
  exitCode : Nat
  stdoutLines : List (List Char)
  stderrLines : List (List Char)
  fileLines : Option (List (List Char))
deriving DecidableEq

/-- The start_value resolution of main (lines 295-305): enum-from-value
validates --start against [0, MAX_BASE62_8]; enum-from-current uses the
decoded counter of the input ID. -/
def resolveStart (mode : Mode) (start : Option Int) (current : Nat) :
    Except (List Char) Int :=
  match mode with
  | Mode.enumFromValue =>
    match start with
    | none =>
      Except.error "Error: --start must be provided for --mode enum-from-value.".toList
    | some st =>
      if st < 0 ∨ (MAX_BASE62_8 : Int) < st then
        Except.error ("Error: --start must be between 0 and ".toList ++
          (Nat.repr MAX_BASE62_8).toList ++ ".".toList)
      else Except.ok st
  | _ => Except.ok (current : Int)

/-- Sequential composition of the output IDs, one make_id call per value
in order (the loop bodies at lines 321-323 and 356-358); none models an
uncaught exception from make_id (unreachable on a 7-char first part). -/
def composeAll (prefix7 : List Char) (to18 : Bool) : List Int → Option (List (List Char))
  | [] => some []
  | v :: vs =>
    match make_id prefix7 v to18 with
    | none => none
    | some r => (composeAll prefix7 to18 vs).map (fun rest => r.1 :: rest)

theorem composeAll_spec (prefix7 : List Char) (to18 : Bool) (h : prefix7.length = 7) :
    ∀ values : List Int,
      composeAll prefix7 to18 values =
        some (values.map (fun v => composedId prefix7 v to18)) := by
  intro values
  induction values with
  | nil => rfl
  | cons v vs ih =>
    unfold composeAll
    rw [make_id_spec _ _ _ h, ih]
    simp

/-- main (lines 189-375) as a function from parsed arguments to an
Outcome.  The schedule parameter abstracts the nondeterministic
completion order of the thread pool: with threads > 1 the results are
emitted in completion order (as_completed, lines 328 and 363), modelled
as an arbitrary reordering of the sequentially composed lines; with
threads ≤ 1 the emission order is the generation order.  The file sink
(lines 331-373) funnels every line through one writer, so the created
file holds exactly the emitted lines; write errors are not modelled. -/
def mainModel (schedule : List (List Char) → List (List Char)) (a : Args) : Outcome :=
  match normalize_to_15 a.id with
  | Except.error e => ⟨2, [], ["Error: ".toList ++ e], none⟩
  | Except.ok id15 =>
    match base62_to_int (id15.drop 7) with
    | none => ⟨2, [], ["Error: Invalid Base62 character".toList], none⟩
    | some current =>
      match a.mode with
      | Mode.decode => ⟨0, [(Nat.repr current).toList], [], none⟩
      | m =>
        match a.seq with
        | none =>
          ⟨2, [], ["Error: --seq must be provided and non-zero for enumeration modes.".toList], none⟩
        | some seq =>
          if seq = 0 then
            ⟨2, [], ["Error: --seq must be provided and non-zero for enumeration modes.".toList], none⟩
          else
            match resolveStart m a.start current with
            | Except.error e => ⟨2, [], [e], none⟩
            | Except.ok start_value =>
              if gen_value_sequence start_value seq = [] then
                ⟨3, [], ["No values generated (sequence may have exceeded bounds).".toList], none⟩
              else
                match composeAll (id15.take 7) a.to18 (gen_value_sequence start_value seq) with
                | none => ⟨1, [], ["Traceback".toList], none⟩
                | some lines =>
                  if a.displayonly then
                    ⟨0, if a.threads ≤ 1 then lines else schedule lines, [], none⟩
                  else
                    ⟨0, [], [], some (if a.threads ≤ 1 then lines else schedule lines)⟩

-- ---------------------------------------------------------------------
-- Driver lemmas
-- ---------------------------------------------------------------------

/-- What normalize_to_15 actually accepts: after stripping surrounding
whitespace, a 15- or 18-character string whose first 15 characters are
alphanumeric; the accepted core is those first 15 characters. -/
theorem normalize_accept_iff (s : List Char) :
    ((∃ c, normalize_to_15 s = Except.ok c) ↔
      (((pyStrip s).length = 15 ∨ (pyStrip s).length = 18) ∧
        pyIsAlnum ((pyStrip s).take 15) = true)) ∧
    (∀ c, normalize_to_15 s = Except.ok c → c = (pyStrip s).take 15) := by
  unfold normalize_to_15
  by_cases he : s.isEmpty
  · have hs : s = [] := by simpa [List.isEmpty_iff] using he
    subst hs
    simp [pyStrip, pyIsAlnum]
  · rw [if_neg he]
    by_cases h18 : (pyStrip s).length = 18
    · rw [if_pos h18]
      by_cases ha : pyIsAlnum ((pyStrip s).take 15) = true
      · simp [ha, h18]
      · simp [ha, h18]
    · rw [if_neg h18]
      by_cases h15 : (pyStrip s).length = 15
      · rw [if_pos h15]
        have htake : (pyStrip s).take 15 = pyStrip s :=
          List.take_of_length_le (by omega)
        by_cases ha : pyIsAlnum (pyStrip s) = true
        · simp [ha, h15, htake]
        · simp [ha, h15, htake]
      · rw [if_neg h15]
        simp [h15, h18]

/-- The counter decoded from a normalized 15-character ID is in range:
it has 8 base-62 digits, so its value is below BASE^8. -/
theorem decoded_current_le {id15 : List Char} {current : Nat}
    (hlen : id15.length = 15)
    (h : base62_to_int (id15.drop 7) = some current) :
    current ≤ MAX_BASE62_8 := by
  have hlt := base62_to_int_lt h
  rw [List.length_drop, hlen] at hlt
  have hpos : 0 < BASE ^ 8 := Nat.pos_pow_of_pos 8 (by decide)
  unfold MAX_BASE62_8
  norm_num at hlt
  omega

/-- resolveStart only succeeds with an in-range start value, provided the
decoded current value is in range. -/
theorem resolveStart_ok_bounds {mode : Mode} {start : Option Int} {current : Nat}
    {sv : Int} (hcur : current ≤ MAX_BASE62_8)
    (h : resolveStart mode start current = Except.ok sv) :
    0 ≤ sv ∧ sv ≤ (MAX_BASE62_8 : Int) := by
  cases mode with
  | enumFromValue =>
    cases start with
    | none => simp [resolveStart] at h
    | some st =>
      simp only [resolveStart] at h
      by_cases hr : st < 0 ∨ (MAX_BASE62_8 : Int) < st
      · rw [if_pos hr] at h
        exact absurd h (by simp)
      · rw [if_neg hr] at h
        cases h
        push_neg at hr
        exact ⟨hr.1, hr.2⟩
  | decode =>
    simp only [resolveStart] at h
    cases h
    constructor
    · positivity
    · exact_mod_cast hcur
  | enumFromCurrent =>
    simp only [resolveStart] at h
    cases h
    constructor
    · positivity
    · exact_mod_cast hcur

-- ---------------------------------------------------------------------
-- Claims
-- ---------------------------------------------------------------------

/-- C1: for every n in [0, 62^8-1], base62_to_int (int_to_base62 n 8) =
n and int_to_base62 n 8 has length exactly 8; more generally the decode
of the encode at width k recovers n for every k at least the natural
base-62 digit count of n. -/
theorem claim_C1 (n k : Nat) (hn : n ≤ MAX_BASE62_8) (hk : b62DigitCount n ≤ k) :
    base62_to_int (int_to_base62 n 8) = some n ∧
    (int_to_base62 n 8).length = 8 ∧
    base62_to_int (int_to_base62 n k) = some n :=
  ⟨base62_roundtrip n 8, int_to_base62_length_eight n hn, base62_roundtrip n k⟩

theorem claim_C1_witness :
    5 ≤ MAX_BASE62_8 ∧ b62DigitCount 5 ≤ 2 ∧
      (base62_to_int (int_to_base62 5 8) = some 5 ∧
       (int_to_base62 5 8).length = 8 ∧
       base62_to_int (int_to_base62 5 2) = some 5) :=
  ⟨by decide, by decide, claim_C1 5 2 (by decide) (by decide)⟩

/-- C2: the checksum suffix algorithm applied to the 15-character input
"001Vc00000PHoN1" yields exactly "001Vc00000PHoN1IAL", reproducing the
documented known vector with suffix "IAL". -/
theorem claim_C2 :
    id15_to_18 "001Vc00000PHoN1".toList = some "001Vc00000PHoN1IAL".toList := by
  decide

/-- C3: gen_value_sequence yields the empty sequence for seq = 0;
otherwise it yields start_value + step * i (step = 1 if seq > 0 else
-1), at most |seq| values, every yielded value in [0, 62^8-1], and it
stops exactly when the next value falls outside that range; in
particular the two concrete vectors near the upper boundary and in the
descending direction. -/
theorem claim_C3 (start_value seq : Int) :
    (seq = 0 → gen_value_sequence start_value seq = []) ∧
    (gen_value_sequence start_value seq).length ≤ seq.natAbs ∧
    (∀ i, i < (gen_value_sequence start_value seq).length →
      (gen_value_sequence start_value seq)[i]? =
        some (start_value + (if 0 < seq then 1 else -1) * i) ∧
      0 ≤ start_value + (if 0 < seq then 1 else -1) * i ∧
      start_value + (if 0 < seq then 1 else -1) * i ≤ (MAX_BASE62_8 : Int)) ∧
    (seq ≠ 0 → (gen_value_sequence start_value seq).length < seq.natAbs →
      ¬(0 ≤ start_value +
          (if 0 < seq then 1 else -1) * (gen_value_sequence start_value seq).length ∧
        start_value +
          (if 0 < seq then 1 else -1) * (gen_value_sequence start_value seq).length ≤
          (MAX_BASE62_8 : Int))) ∧
    gen_value_sequence ((62:Int)^8 - 2) 5 = [(62:Int)^8 - 2, (62:Int)^8 - 1] ∧
    gen_value_sequence 100 (-10) = [100, 99, 98, 97, 96, 95, 94, 93, 92, 91] := by
  refine ⟨?_, ?_, ?_, ?_, by decide, by decide⟩
  · intro h
    simp [gen_value_sequence, h]
  · by_cases h : seq = 0
    · simp [gen_value_sequence, h]
    · simp only [gen_value_sequence, if_neg h]
      exact genLoop_length_le _ _ _
  · intro i hi
    by_cases h : seq = 0
    · simp [gen_value_sequence, h] at hi
    · simp only [gen_value_sequence, if_neg h] at hi ⊢
      exact genLoop_getElem _ _ _ i hi
  · intro h hlen
    simp only [gen_value_sequence, if_neg h] at hlen ⊢
    exact genLoop_stop _ _ _ hlen

theorem claim_C3_witness : gen_value_sequence 3 0 = [] :=
  (claim_C3 3 0).1 rfl

/-- C4 counterexample: an enum-mode invocation with seq = 0 exits with
code 2 (invalid argument), not with the empty-result status 3 the claim
asserts; the generator is never invoked. -/
theorem claim_C4_counterexample :
    (mainModel (fun l => l)
      ⟨"001Vc00000PHoN1".toList, Mode.enumFromCurrent, none, some 0, 50, false, false⟩).exitCode
        = 2 ∧
    ¬(mainModel (fun l => l)
      ⟨"001Vc00000PHoN1".toList, Mode.enumFromCurrent, none, some 0, 50, false, false⟩).exitCode
        = 3 := by
  decide

/-- C4 amended: every enum-mode invocation with seq = 0 is rejected as a
missing/zero --seq argument with exit code 2 before the generator runs;
it creates no output file and prints no ID lines.  (The empty-result
status-3 branch exists in the code but is unreachable from the CLI; see
C10.) -/
theorem claim_C4_amended (schedule : List (List Char) → List (List Char)) (a : Args)
    (hm : a.mode ≠ Mode.decode) (hs : a.seq = some 0) :
    (mainModel schedule a).exitCode = 2 ∧
    (mainModel schedule a).stdoutLines = [] ∧
    (mainModel schedule a).fileLines = none := by
  rcases hn : normalize_to_15 a.id with e | id15
  · simp [mainModel, hn]
  rcases hb : base62_to_int (id15.drop 7) with _ | current
  · simp [mainModel, hn, hb]
  cases hmo : a.mode with
  | decode => exact absurd hmo hm
  | enumFromValue => simp [mainModel, hn, hb, hmo, hs]
  | enumFromCurrent => simp [mainModel, hn, hb, hmo, hs]

theorem claim_C4_amended_witness :
    (⟨"001Vc00000PHoN1".toList, Mode.enumFromCurrent, none, some 0, 50, false,
        false⟩ : Args).mode ≠ Mode.decode ∧
    (mainModel (fun l => l)
      ⟨"001Vc00000PHoN1".toList, Mode.enumFromCurrent, none, some 0, 50, false, false⟩).exitCode
        = 2 :=
  ⟨by decide,
   (claim_C4_amended (fun l => l)
     ⟨"001Vc00000PHoN1".toList, Mode.enumFromCurrent, none, some 0, 50, false, false⟩
     (by decide) rfl).1⟩

/-- C5: make_id never fails for a 7-character object/instance marker:
the value is clamped into [0, 62^8-1], the counter field is the exact
8-character base-62 encoding of the clamped value, and the output ID is
the 15-character body extended by the 3-character checksum suffix
exactly when the 18-char flag is set. -/
theorem claim_C5 (prefix7 : List Char) (value : Int) (to18 : Bool)
    (h : prefix7.length = 7) :
    make_id prefix7 value to18 =
      some (composedId prefix7 value to18,
            int_to_base62 (clamp_record_value value).toNat 8,
            clamp_record_value value) ∧
    0 ≤ clamp_record_value value ∧
    clamp_record_value value ≤ (MAX_BASE62_8 : Int) ∧
    (int_to_base62 (clamp_record_value value).toNat 8).length = 8 ∧
    composedId prefix7 value to18 =
      (prefix7 ++ int_to_base62 (clamp_record_value value).toNat 8) ++
        (if to18 then
          suffix3 (prefix7 ++ int_to_base62 (clamp_record_value value).toNat 8)
        else []) ∧
    (suffix3 (prefix7 ++ int_to_base62 (clamp_record_value value).toNat 8)).length = 3 :=
  ⟨make_id_spec prefix7 value to18 h, clamp_record_value_nonneg value,
   clamp_record_value_le value, make_id_counter_length value, rfl, suffix3_length _⟩

theorem claim_C5_witness :
    "001Vc00".toList.length = 7 ∧
    make_id "001Vc00".toList (-5) true =
      some (composedId "001Vc00".toList (-5) true,
            int_to_base62 (clamp_record_value (-5)).toNat 8,
            clamp_record_value (-5)) :=
  ⟨by decide, (claim_C5 "001Vc00".toList (-5) true (by decide)).1⟩

/-- C6 counterexample: normalization accepts inputs the claim excludes:
an 18-character string whose last three characters are not alphanumeric,
and a 16-character string carrying a leading space (which strip
removes). -/
theorem claim_C6_counterexample :
    normalize_to_15 "001Vc00000PHoN1!!!".toList =
      Except.ok "001Vc00000PHoN1".toList ∧
    "001Vc00000PHoN1!!!".toList.all Char.isAlphanum = false ∧
    "001Vc00000PHoN1!!!".toList.length = 18 ∧
    normalize_to_15 " 001Vc00000PHoN1".toList =
      Except.ok "001Vc00000PHoN1".toList ∧
    " 001Vc00000PHoN1".toList.length = 16 := by
  decide

/-- C6 amended: an input is accepted by normalization iff, after
stripping leading/trailing whitespace, it has exactly 15 or 18
characters and its FIRST 15 characters are alphanumeric (the last 3
characters of an 18-character input are not checked); the accepted core
is those first 15 characters, and any rejected input makes main exit
with code 2, printing one diagnostic to stderr, no stdout lines, and no
output file. -/
theorem claim_C6_amended (s : List Char) :
    ((∃ c, normalize_to_15 s = Except.ok c) ↔
      (((pyStrip s).length = 15 ∨ (pyStrip s).length = 18) ∧
        pyIsAlnum ((pyStrip s).take 15) = true)) ∧
    (∀ c, normalize_to_15 s = Except.ok c → c = (pyStrip s).take 15) ∧
    (∀ (schedule : List (List Char) → List (List Char)) mode st sq th dp t18 e,
      normalize_to_15 s = Except.error e →
      mainModel schedule ⟨s, mode, st, sq, th, dp, t18⟩ =
        ⟨2, [], ["Error: ".toList ++ e], none⟩) := by
  refine ⟨(normalize_accept_iff s).1, (normalize_accept_iff s).2, ?_⟩
  intro schedule mode st sq th dp t18 e he
  unfold mainModel
  rw [he]

theorem claim_C6_amended_witness :
    ∃ c, normalize_to_15 "001Vc00000PHoN1".toList = Except.ok c :=
  (claim_C6_amended "001Vc00000PHoN1".toList).1.mpr (by decide)

/-- C7: for every valid input ID, decode mode prints exactly one stdout
line, the decimal value of the base-62 decode of the counter segment of
the normalized ID, exits with status 0, creates no file, and its outcome
is independent of every enumeration argument and of the thread-pool
schedule (it never reaches the generator or the composer). -/
theorem claim_C7 (schedule sched' : List (List Char) → List (List Char))
    (id id15 : List Char) (v : Nat)
    (h1 : normalize_to_15 id = Except.ok id15)
    (h2 : base62_to_int (id15.drop 7) = some v)
    (start start' seq seq' : Option Int) (threads threads' : Int)
    (dp dp' to18 to18' : Bool) :
    mainModel schedule ⟨id, Mode.decode, start, seq, threads, dp, to18⟩ =
      ⟨0, [(Nat.repr v).toList], [], none⟩ ∧
    mainModel schedule ⟨id, Mode.decode, start, seq, threads, dp, to18⟩ =
      mainModel sched' ⟨id, Mode.decode, start', seq', threads', dp', to18'⟩ := by
  have k : ∀ (sch : List (List Char) → List (List Char)) st sq th d t,
      mainModel sch ⟨id, Mode.decode, st, sq, th, d, t⟩ =
        ⟨0, [(Nat.repr v).toList], [], none⟩ := by
    intro sch st sq th d t
    simp [mainModel, h1, h2]
  exact ⟨k _ _ _ _ _ _, by rw [k, k]⟩

theorem claim_C7_witness :
    normalize_to_15 "001Vc00000PHoN1IAL".toList =
      Except.ok "001Vc00000PHoN1".toList ∧
    mainModel (fun l => l)
      ⟨"001Vc00000PHoN1IAL".toList, Mode.decode, none, none, 50, false, false⟩ =
        ⟨0, [(Nat.repr 373653603).toList], [], none⟩ :=
  ⟨by decide,
   (claim_C7 (fun l => l) (fun l => l) "001Vc00000PHoN1IAL".toList
     "001Vc00000PHoN1".toList 373653603 (by decide) (by decide)
     none none none none 50 50 false false false false).1⟩

/-- C8: in any enum-mode run with threads ≤ 1 that reaches emission, the
emitted lines (stdout when displayonly, file content otherwise) are
exactly the composed IDs of the generated values, in generation order. -/
theorem claim_C8 (schedule : List (List Char) → List (List Char)) (a : Args)
    (id15 : List Char) (current : Nat) (s start_value : Int)
    (h1 : normalize_to_15 a.id = Except.ok id15)
    (h2 : base62_to_int (id15.drop 7) = some current)
    (h3 : a.mode ≠ Mode.decode)
    (h4 : a.seq = some s) (h5 : s ≠ 0)
    (h6 : resolveStart a.mode a.start current = Except.ok start_value)
    (h7 : gen_value_sequence start_value s ≠ [])
    (h8 : a.threads ≤ 1) :
    mainModel schedule a =
      ⟨0,
       if a.displayonly then
         (gen_value_sequence start_value s).map
           (fun v => composedId (id15.take 7) v a.to18)
       else [],
       [],
       if a.displayonly then none
       else
         some ((gen_value_sequence start_value s).map
           (fun v => composedId (id15.take 7) v a.to18))⟩ := by
  have hp : (id15.take 7).length = 7 := by
    have h15 := normalize_ok_length h1
    rw [List.length_take, h15]
    decide
  have hc := composeAll_spec (id15.take 7) a.to18 hp (gen_value_sequence start_value s)
  cases hmo : a.mode with
  | decode => exact absurd hmo h3
  | enumFromValue =>
    rw [hmo] at h6
    by_cases hd : a.displayonly <;>
      simp [mainModel, h1, h2, hmo, h4, h5, h6, h7, hc, h8, hd]
  | enumFromCurrent =>
    rw [hmo] at h6
    by_cases hd : a.displayonly <;>
      simp [mainModel, h1, h2, hmo, h4, h5, h6, h7, hc, h8, hd]

theorem claim_C8_witness :
    gen_value_sequence 373653603 2 ≠ [] ∧
    mainModel (fun l => l)
      ⟨"001Vc00000PHoN1".toList, Mode.enumFromCurrent, none, some 2, 1, true, false⟩ =
        ⟨0,
         (gen_value_sequence 373653603 2).map
           (fun v => composedId ("001Vc00000PHoN1".toList.take 7) v false),
         [],
         none⟩ :=
  ⟨by decide,
   claim_C8 (fun l => l)
     ⟨"001Vc00000PHoN1".toList, Mode.enumFromCurrent, none, some 2, 1, true, false⟩
     "001Vc00000PHoN1".toList 373653603 2 373653603
     (by decide) (by decide) (by decide) rfl (by decide) (by decide) (by decide)
     (by decide)⟩

/-- C9: every enum-from-value invocation whose --start lies outside
[0, 62^8-1] exits with code 2 before any generation or composition,
prints exactly one diagnostic to stderr, no stdout lines, and creates no
output file. -/
theorem claim_C9 (schedule : List (List Char) → List (List Char)) (a : Args)
    (st : Int)
    (h1 : a.mode = Mode.enumFromValue)
    (h2 : a.start = some st)
    (h3 : st < 0 ∨ (MAX_BASE62_8 : Int) < st) :
    (mainModel schedule a).exitCode = 2 ∧
    (mainModel schedule a).stdoutLines = [] ∧
    (mainModel schedule a).fileLines = none ∧
    (mainModel schedule a).stderrLines.length = 1 := by
  rcases hn : normalize_to_15 a.id with e | id15
  · simp [mainModel, hn]
  rcases hb : base62_to_int (id15.drop 7) with _ | current
  · simp [mainModel, hn, hb]
  rcases hq : a.seq with _ | sq
  · simp [mainModel, hn, hb, h1, hq]
  by_cases hz : sq = 0
  · simp [mainModel, hn, hb, h1, hq, hz]
  have hres : resolveStart Mode.enumFromValue a.start current =
      Except.error ("Error: --start must be between 0 and ".toList ++
        (Nat.repr MAX_BASE62_8).toList ++ ".".toList) := by
    rw [h2]
    simp only [resolveStart]
    rw [if_pos h3]
  simp [mainModel, hn, hb, h1, hq, hz, hres]

theorem claim_C9_witness :
    ((-7 : Int) < 0 ∨ (MAX_BASE62_8 : Int) < (-7 : Int)) ∧
    (mainModel (fun l => l)
      ⟨"001Vc00000PHoN1".toList, Mode.enumFromValue, some (-7), some 3, 50, true,
        false⟩).exitCode = 2 :=
  ⟨Or.inl (by decide),
   (claim_C9 (fun l => l)
     ⟨"001Vc00000PHoN1".toList, Mode.enumFromValue, some (-7), some 3, 50, true, false⟩
     (-7) rfl rfl (Or.inl (by decide))).1⟩

/-- C10: the empty-sequence branch (exit code 3) is unreachable from the
command line: for every argument vector and every schedule, main never
returns 3, because any start value that reaches generation lies in
[0, 62^8-1] (validated for enum-from-value, decoded from an 8-character
base-62 counter for enum-from-current), so the generated list is
non-empty whenever seq is non-zero. -/
theorem claim_C10 (schedule : List (List Char) → List (List Char)) (a : Args) :
    (mainModel schedule a).exitCode ≠ 3 := by
  rcases hn : normalize_to_15 a.id with e | id15
  · simp [mainModel, hn]
  rcases hb : base62_to_int (id15.drop 7) with _ | current
  · simp [mainModel, hn, hb]
  have hcur : current ≤ MAX_BASE62_8 :=
    decoded_current_le (normalize_ok_length hn) hb
  cases hmo : a.mode with
  | decode => simp [mainModel, hn, hb, hmo]
  | enumFromValue =>
    rcases hq : a.seq with _ | sq
    · simp [mainModel, hn, hb, hmo, hq]
    by_cases hz : sq = 0
    · simp [mainModel, hn, hb, hmo, hq, hz]
    rcases hres : resolveStart Mode.enumFromValue a.start current with e | sv
    · simp [mainModel, hn, hb, hmo, hq, hz, hres]
    have hbounds := resolveStart_ok_bounds hcur hres
    have hne := gen_value_sequence_ne_nil sv sq hz hbounds.1 hbounds.2
    rcases hca : composeAll (id15.take 7) a.to18 (gen_value_sequence sv sq) with _ | lines
    · simp [mainModel, hn, hb, hmo, hq, hz, hres, hne, hca]
    by_cases hd : a.displayonly <;>
      simp [mainModel, hn, hb, hmo, hq, hz, hres, hne, hca, hd]
  | enumFromCurrent =>
    rcases hq : a.seq with _ | sq
    · simp [mainModel, hn, hb, hmo, hq]
    by_cases hz : sq = 0
    · simp [mainModel, hn, hb, hmo, hq, hz]
    rcases hres : resolveStart Mode.enumFromCurrent a.start current with e | sv
    · simp [mainModel, hn, hb, hmo, hq, hz, hres]
    have hbounds := resolveStart_ok_bounds hcur hres
    have hne := gen_value_sequence_ne_nil sv sq hz hbounds.1 hbounds.2
    rcases hca : composeAll (id15.take 7) a.to18 (gen_value_sequence sv sq) with _ | lines
    · simp [mainModel, hn, hb, hmo, hq, hz, hres, hne, hca]
    by_cases hd : a.displayonly <;>
      simp [mainModel, hn, hb, hmo, hq, hz, hres, hne, hca, hd]

end Sfidenum
